import Mathlib

/-!
Verification of the reu-2024 spatial-data core against its specification.

The development shallow-embeds the two Python source files:

* `filter_segmented_classes/src/rosbag_stitching.py` — point-cloud stitching
  (reference-filtered fusion plus voxel downsampling), and
* `waypoint_path_trail/traversability_listener.py` — quadrant-relative
  traversability gridding.

Python floats are modelled as rationals; Euclidean-distance comparisons are
carried out on squared distances (for nonnegative radii the two are
equivalent, and the squared form is exact over the rationals).  Fallible
numpy/Python operations are modelled with `Except`.
-/

namespace Reu2024

/-- A Python-level error surfacing from the numeric code.
`indexError` models numpy's IndexError; `zeroDivision` models a division
whose denominator is zero (a Python-float ZeroDivisionError, or the
NaN/inf a numpy float64 division produces — in either case no rational
value results). -/
inductive PyErr where
  | indexError
  | zeroDivision
  deriving DecidableEq

/-- A 3-D position, from the first three columns of a point record. -/
structure V3 where
  x : ℚ
  y : ℚ
  z : ℚ
  deriving DecidableEq

/-- A six-column stitching point record (x, y, z, r, g, b), the row layout
produced by `pointcloud2_to_array`. -/
structure P6 where
  x : ℚ
  y : ℚ
  z : ℚ
  r : ℚ
  g : ℚ
  b : ℚ
  deriving DecidableEq

/-- The position columns of a stitching record (the `[:, :3]` slice of one
row). -/
def P6.pos (p : P6) : V3 := ⟨p.x, p.y, p.z⟩

/-- Squared Euclidean distance between two 3-D positions.  Only the position
subspace enters; attribute (color) channels never do. -/
def d2 (a b : V3) : ℚ :=
  (a.x - b.x) ^ 2 + (a.y - b.y) ^ 2 + (a.z - b.z) ^ 2

/-- Squared distance from a query position to its nearest neighbour in the
reference point list: the model of `cKDTree.query(q)` (k = 1) built over
`liosam_map[:, :3]`.  On an empty reference list the value is a junk `0`;
the stitcher only builds the tree from a delivered reference map. -/
def nearestDist2 (tree : List V3) (q : V3) : ℚ :=
  match tree with
  | [] => 0
  | t :: ts => ts.foldl (fun acc u => min acc (d2 q u)) (d2 q t)

/-- The filtering step of `update_global_pointcloud`:
`new_pointcloud[distances < self.distance_threshold]`.  A batch point is kept
exactly when its nearest-neighbour distance to the reference index is
strictly below `thr`; comparing squared quantities (`thr * thr`) is the exact
rational form of the float comparison for `thr ≥ 0`. -/
def filtered_pointcloud (tree : List V3) (thr : ℚ) (new : List P6) : List P6 :=
  new.filter (fun p => decide (nearestDist2 tree p.pos < thr * thr))

/-- The voxel key of a point: which cube of edge `v` of the regular grid
partitioning 3-D space the point's position falls in. -/
def vkey (v : ℚ) (p : P6) : ℤ × ℤ × ℤ :=
  (⌊p.x / v⌋, ⌊p.y / v⌋, ⌊p.z / v⌋)

/-- Arithmetic mean of a list of rationals (`sum(l) / len(l)`); junk `0` on
the empty list. -/
def meanQ (l : List ℚ) : ℚ := l.sum / (l.length : ℚ)

/-- Componentwise centroid of a list of point records: positions and
attribute channels are all averaged. -/
def centroid (l : List P6) : P6 :=
  ⟨meanQ (l.map P6.x), meanQ (l.map P6.y), meanQ (l.map P6.z),
   meanQ (l.map P6.r), meanQ (l.map P6.g), meanQ (l.map P6.b)⟩

/-- Modelled from the spec: the library downsampling primitive
`open3d.geometry.PointCloud.voxel_down_sample`, wrapped by
`voxel_downsample`, is external code treated by the spec as a black box
with a stated contract (section 4.2): space is partitioned into a regular
grid of cubes of edge `v`, and each occupied cube contributes exactly one
output point whose position and attribute values are the arithmetic mean of
the input points falling in that cube.  Occupied cubes are emitted in a
deterministic order derived from the input order. -/
def voxel_down_sample (v : ℚ) (S : List P6) : List P6 :=
  ((S.map (vkey v)).dedup).map
    (fun k => centroid (S.filter (fun p => decide (vkey v p = k))))

/-- The `[:, :3]` slice of `np.array(points_list)`.  When `points_list` is
empty, `np.array([])` has shape `(0,)` (one dimension), so the
two-dimensional slice raises `IndexError: too many indices for array`;
otherwise the array is 2-D and the slice yields the position columns. -/
def sliceXYZ (arr : List P6) : Except PyErr (List V3) :=
  if arr.isEmpty then Except.error PyErr.indexError
  else Except.ok (arr.map P6.pos)

/-- `update_global_pointcloud`, acting on the current (optional) global
cloud: slice the batch's position columns (can raise), filter against the
reference tree, append to (or initialize) the global cloud, and voxel
downsample the combination. -/
def update_global_pointcloud (v thr : ℚ) (tree : List V3)
    (global : Option (List P6)) (new : List P6) : Except PyErr (List P6) :=
  match sliceXYZ new with
  | Except.error e => Except.error e
  | Except.ok _ =>
      let filtered := filtered_pointcloud tree thr new
      let combined :=
        match global with
        | none => filtered
        | some g => g ++ filtered
      Except.ok (voxel_down_sample v combined)

/-- The observable outcome of one `pointcloud_callback` invocation.
`notReady` models the early `rospy.logwarn` return taken while no reference
map has been received (the spec's `NotReadyError`); `err` models an
uncaught Python exception escaping the callback; `fused` carries the cloud
published after a successful fuse. -/
inductive FuseOutcome where
  | notReady
  | fused (published : List P6)
  | err (e : PyErr)
  deriving DecidableEq

/-- The stitcher's mutable state: the reference k-d tree (`liosam_tree`,
present once a reference map arrived) and the accumulated global cloud. -/
structure StitcherState where
  liosam_tree : Option (List V3)
  global_pointcloud : Option (List P6)
  deriving DecidableEq

/-- `pointcloud_callback`: drop the batch (log only) while no reference tree
exists; otherwise run `update_global_pointcloud` and, on success, store and
publish the new global cloud.  An exception leaves the state unchanged
because the assignment to `self.global_pointcloud` happens only on the
successful path. -/
def pointcloud_callback (v thr : ℚ) (st : StitcherState) (msg : List P6) :
    StitcherState × FuseOutcome :=
  match st.liosam_tree with
  | none => (st, FuseOutcome.notReady)
  | some tree =>
      match update_global_pointcloud v thr tree st.global_pointcloud msg with
      | Except.error e => (st, FuseOutcome.err e)
      | Except.ok g => (⟨some tree, some g⟩, FuseOutcome.fused g)

-- ===================================================================
-- Traversability gridding (traversability_listener.py)
-- ===================================================================

/-- One traversability point record as delivered by `read_points`:
position columns x, y, z and the class/traversability value `point[3]`. -/
structure TPoint where
  x : ℚ
  y : ℚ
  z : ℚ
  trav : ℚ
  deriving DecidableEq

/-- `extract_trav_value`: the traversability value of a point record. -/
def extract_trav_value (p : TPoint) : ℚ := p.trav

/-- Python's `min` over a nonempty list of rationals; junk `0` on `[]`
(where Python would raise ValueError). -/
def listMin (l : List ℚ) : ℚ :=
  match l with
  | [] => 0
  | a :: t => t.foldl min a

/-- Python's `max` over a nonempty list of rationals; junk `0` on `[]`. -/
def listMax (l : List ℚ) : ℚ :=
  match l with
  | [] => 0
  | a :: t => t.foldl max a

/-- `min(point[3] for point in points_list)`: the attribute minimum over the
entire input batch. -/
def min_trav (pts : List TPoint) : ℚ := listMin (pts.map extract_trav_value)

/-- `max(point[3] for point in points_list)`: the attribute maximum over the
entire input batch. -/
def max_trav (pts : List TPoint) : ℚ := listMax (pts.map extract_trav_value)

/-- Bounding-box coordinates computed in `build_traversability_map` from the
x and y coordinate lists of the batch. -/
def bb_min_x (pts : List TPoint) : ℚ := listMin (pts.map TPoint.x)

/-- Maximum x coordinate of the batch. -/
def bb_max_x (pts : List TPoint) : ℚ := listMax (pts.map TPoint.x)

/-- Minimum y coordinate of the batch. -/
def bb_min_y (pts : List TPoint) : ℚ := listMin (pts.map TPoint.y)

/-- Maximum y coordinate of the batch. -/
def bb_max_y (pts : List TPoint) : ℚ := listMax (pts.map TPoint.y)

/-- Python's `int(...)` applied to a float: truncation toward zero. -/
def truncQ (q : ℚ) : ℤ := if q < 0 then ⌈q⌉ else ⌊q⌋

/-- The shape `(rows, cols)` of the quadrant grids allocated by
`initialize_empty_quadrants`: all four `np.full` calls in each branch use
the same shape, so one pair per branch captures the function.  The branch
structure and formulas mirror the source's if/elif chain exactly.  The
final `else` is unreachable (the last four conditions cover all sign
combinations of `max_y` and `max_x`); Python would raise
UnboundLocalError there, and the model returns a junk `(0, 0)`. -/
def quadrant_dims (min_x max_x min_y max_y : ℚ) (scale_value : ℤ) : ℤ × ℤ :=
  if min_y > 0 ∧ max_y > 0 ∧ min_x > 0 ∧ max_x > 0 then
    (scale_value * truncQ max_y + 1, scale_value * truncQ max_x + 1)
  else if min_y > 0 ∧ max_y > 0 ∧ max_x ≤ 0 then
    (scale_value * truncQ max_y + 1, scale_value * truncQ (|min_x| + 1))
  else if max_y ≤ 0 ∧ min_x > 0 ∧ max_x > 0 then
    (scale_value * truncQ (|min_y| + 1), scale_value * truncQ max_x + 1)
  else if min_y > 0 ∧ max_y > 0 ∧ min_x ≤ 0 ∧ max_x > 0 then
    (scale_value * truncQ max_y + 1, scale_value * truncQ (max_x - min_x) + 1)
  else if min_y ≤ 0 ∧ max_y > 0 ∧ min_x > 0 ∧ max_x > 0 then
    (scale_value * truncQ (max_y - min_y) + 1, scale_value * truncQ max_x + 1)
  else if max_y > 0 ∧ max_x > 0 then
    (scale_value * truncQ (max_y - min_y) + 1, scale_value * truncQ (max_x - min_x) + 1)
  else if max_y ≤ 0 ∧ max_x > 0 then
    (scale_value * truncQ (|min_y| + 1), scale_value * truncQ (max_x - min_x) + 1)
  else if max_y ≤ 0 ∧ max_x ≤ 0 then
    (scale_value * truncQ (|min_y| + 1), scale_value * truncQ (|min_x| + 1))
  else if max_y > 0 ∧ max_x ≤ 0 then
    (scale_value * truncQ (max_y - min_y) + 1, scale_value * truncQ |min_x|)
  else
    (0, 0)

/-- Modelled from the spec: the design-note replacement formula
`dim = resolution * (ceil(max(0,maxV)) - floor(min(0,minV))) + 1`, applied
independently to one axis. -/
def uniform_dim (resolution : ℤ) (minV maxV : ℚ) : ℤ :=
  resolution * (⌈max 0 maxV⌉ - ⌊min 0 minV⌋) + 1

/-- Rational division as performed on the Python/numpy floats of
`optimize_quadrants`: a zero denominator produces no rational value
(ZeroDivisionError for Python floats, NaN/inf for numpy float64 — the
source has no guard either way). -/
def pyDiv (a b : ℚ) : Except PyErr ℚ :=
  if b = 0 then Except.error PyErr.zeroDivision else Except.ok (a / b)

/-- The radius query of one loop iteration of `process_quadrant`: the cell's
1×1 world-space box is anchored at the sign-multiplied, scale-divided cell
coordinate, and the index is queried at the box midpoint with radius half
the box diagonal (comparison on squared distance, exact over ℚ;
`query_ball_point` includes the boundary). -/
def cellQuery (pts : List TPoint) (s mx my : ℤ) (x y : ℕ) : List TPoint :=
  let x_value : ℚ := ((x : ℚ) * (mx : ℚ)) / (s : ℚ)
  let y_value : ℚ := ((y : ℚ) * (my : ℚ)) / (s : ℚ)
  let box_min_x := x_value
  let box_min_y := y_value
  let box_max_x := x_value + 1
  let box_max_y := y_value + 1
  let center_x := (box_min_x + box_max_x) / 2
  let center_y := (box_min_y + box_max_y) / 2
  let radius2 := ((box_max_x - box_min_x) ^ 2 + (box_max_y - box_min_y) ^ 2) / 4
  pts.filter (fun p => decide ((p.x - center_x) ^ 2 + (p.y - center_y) ^ 2 ≤ radius2))

/-- The value a cell of a quadrant map ends up with after its
`process_quadrant` iteration: if the radius query is empty the cell keeps
the initial value 0.0 passed to `initialize_empty_quadrants`; otherwise the
average of the queried points' traversability values is normalized by the
whole-batch minimum and maximum (the division can fail — there is no
guard in the source). -/
def cellValue (pts : List TPoint) (s mx my : ℤ) (x y : ℕ) : Except PyErr ℚ :=
  let relevant_points := cellQuery pts s mx my x y
  if relevant_points.isEmpty then Except.ok 0
  else
    let traversability_values := relevant_points.map extract_trav_value
    let avg_trav := meanQ traversability_values
    pyDiv (avg_trav - min_trav pts) (max_trav pts - min_trav pts)

/-- Modelled from the spec: claim C7's reading of the cell geometry and
value — the cell covers a `1/resolution × 1/resolution` world-space square
anchored at the sign-multiplied cell coordinate, it is queried with the
half-diagonal of that square about its center, and a non-empty query sets
the cell to the raw arithmetic mean of the attribute values (default 0.0
otherwise). -/
def cell_value_claimed (pts : List TPoint) (s mx my : ℤ) (x y : ℕ) : ℚ :=
  let cx : ℚ := ((x : ℚ) * (mx : ℚ)) / (s : ℚ) + 1 / (2 * (s : ℚ))
  let cy : ℚ := ((y : ℚ) * (my : ℚ)) / (s : ℚ) + 1 / (2 * (s : ℚ))
  let r2 : ℚ := ((1 / (s : ℚ)) ^ 2 + (1 / (s : ℚ)) ^ 2) / 4
  let q := pts.filter (fun p => decide ((p.x - cx) ^ 2 + (p.y - cy) ^ 2 ≤ r2))
  if q.isEmpty then 0 else meanQ (q.map extract_trav_value)

/-- The corrected cell semantics actually implemented by
`process_quadrant`: a fixed 1×1 world-space box anchored at
`(x·mx/s, y·my/s)` regardless of the resolution, center at the anchor plus
(1/2, 1/2), squared query radius 1/2, and the batch-normalized mean
`(avg − globalMin) / (globalMax − globalMin)` for a non-empty query. -/
def cell_value_amended (pts : List TPoint) (s mx my : ℤ) (x y : ℕ) : ℚ :=
  let cx : ℚ := ((x : ℚ) * (mx : ℚ)) / (s : ℚ) + 1/2
  let cy : ℚ := ((y : ℚ) * (my : ℚ)) / (s : ℚ) + 1/2
  let q := pts.filter (fun p => decide ((p.x - cx) ^ 2 + (p.y - cy) ^ 2 ≤ 1/2))
  if q.isEmpty then 0
  else (meanQ (q.map extract_trav_value) - min_trav pts) / (max_trav pts - min_trav pts)

/-- The write pattern of `process_quadrant` on an `h × w` quadrant array:
`np.ndenumerate` iterates index pairs `(x, y)` with `x < h` rows and
`y < w` cols, and an iteration whose radius query returns at least one
point (the `len(relevant_points) > 0` guard) assigns `map_q[y, x]` — row
`y`, column `x`; iterations with an empty query perform no write.  Every
assignment actually performed is in bounds exactly when this holds. -/
def writesInBounds (pts : List TPoint) (s mx my : ℤ) (h w : ℕ) : Prop :=
  ∀ x, x < h → ∀ y, y < w → cellQuery pts s mx my x y ≠ [] → y < h ∧ x < w

/-- Concrete reference index used by witnesses: the single origin point. -/
def treeA : List V3 := [⟨0, 0, 0⟩]

/-- Concrete batch used by witnesses: one point at distance 3/10 from the
reference and one at distance 1. -/
def batchA : List P6 := [⟨0, 0, 3/10, 0, 0, 0⟩, ⟨0, 0, 1, 0, 0, 0⟩]

/-- The first point of `batchA`. -/
def pA : P6 := ⟨0, 0, 3/10, 0, 0, 0⟩

/-- Concrete batch with two distinct traversability values (1 and 2), both
points inside the radius query of cell (0, 0) of quadrant Q1. -/
def pts2 : List TPoint := [⟨0, 0, 0, 1⟩, ⟨1/4, 0, 0, 2⟩]

/-- Concrete batch whose traversability values are all equal (both 1). -/
def ptsC : List TPoint := [⟨0, 0, 0, 1⟩, ⟨1/4, 0, 0, 1⟩]

/-- Concrete batch driving the ninth dimension branch with `|min_x| < 1`:
x-range `[-1/2, -1/2]` (so `max_x ≤ 0`) and y-range `[-1/5, 1/2]`
(straddling zero). -/
def ptsW : List TPoint := [⟨-1/2, -1/5, 0, 0⟩, ⟨-1/2, 1/2, 0, 0⟩]

/-- Concrete two-point batch whose quadrant grids are the non-square 2 × 1
shape at resolution 1, and whose point (9/10, 9/20) lies inside the radius
query of iteration index (1, 0) of quadrant Q1 — so that iteration's
guarded write actually executes. -/
def ptsB : List TPoint := [⟨9/10, 9/20, 0, 1⟩, ⟨3/10, 6/5, 0, 2⟩]

/-- Concrete one-point batch at (5/2, 5/2) whose quadrant grids are the
square 3 × 3 shape at resolution 1. -/
def ptsSq : List TPoint := [⟨5/2, 5/2, 0, 0⟩]

/-- Concrete stitching cloud: two records sharing the unit voxel at the
origin. -/
def cloudS : List P6 := [⟨0, 0, 0, 1, 0, 0⟩, ⟨1/2, 0, 0, 0, 1, 0⟩]

-- ===================================================================
-- Helper lemmas
-- ===================================================================

theorem d2_nonneg (a b : V3) : 0 ≤ d2 a b := by
  unfold d2; positivity

theorem foldl_min_d2_nonneg (q : V3) (ts : List V3) (a : ℚ) (ha : 0 ≤ a) :
    0 ≤ ts.foldl (fun acc u => min acc (d2 q u)) a := by
  induction ts generalizing a with
  | nil => simpa using ha
  | cons t ts ih =>
      simp only [List.foldl_cons]
      exact ih _ (le_min ha (d2_nonneg q t))

theorem nearestDist2_nonneg (tree : List V3) (q : V3) :
    0 ≤ nearestDist2 tree q := by
  cases tree with
  | nil => simp [nearestDist2]
  | cons t ts => exact foldl_min_d2_nonneg q ts _ (d2_nonneg q t)

-- ===================================================================
-- Claim C1
-- ===================================================================

/-- Claim C1: a batch point survives the fuse filter iff its Euclidean
nearest-neighbour distance (computed in the position subspace only) to the
reference index is strictly less than the distance threshold.  In
particular a point at exactly the threshold distance is excluded and one
strictly inside is kept. -/
theorem fuse_keeps_point_iff_distance_below_threshold
    (tree : List V3) (thr : ℚ) (hthr : 0 ≤ thr) (new : List P6) (p : P6) :
    p ∈ filtered_pointcloud tree thr new ↔
      p ∈ new ∧ Real.sqrt ((nearestDist2 tree p.pos : ℚ) : ℝ) < ((thr : ℚ) : ℝ) := by
  unfold filtered_pointcloud
  rw [List.mem_filter]
  constructor
  · rintro ⟨hmem, hkeep⟩
    refine ⟨hmem, ?_⟩
    have hq : nearestDist2 tree p.pos < thr * thr := by
      simpa using hkeep
    rcases lt_or_eq_of_le hthr with hpos | hzero
    · have hpr : (0 : ℝ) < (thr : ℚ) := by exact_mod_cast hpos
      rw [Real.sqrt_lt' hpr]
      have : ((nearestDist2 tree p.pos : ℚ) : ℝ) < ((thr * thr : ℚ) : ℝ) := by
        exact_mod_cast hq
      calc ((nearestDist2 tree p.pos : ℚ) : ℝ)
          < ((thr * thr : ℚ) : ℝ) := this
        _ = ((thr : ℚ) : ℝ) ^ 2 := by push_cast; ring
    · exfalso
      have h0 : (0 : ℚ) ≤ nearestDist2 tree p.pos := nearestDist2_nonneg tree p.pos
      rw [← hzero] at hq
      simpa using lt_of_le_of_lt h0 hq
  · rintro ⟨hmem, hlt⟩
    refine ⟨hmem, ?_⟩
    have h0 : (0 : ℝ) ≤ ((nearestDist2 tree p.pos : ℚ) : ℝ) := by
      exact_mod_cast nearestDist2_nonneg tree p.pos
    have hsq : ((nearestDist2 tree p.pos : ℚ) : ℝ) < ((thr : ℚ) : ℝ) ^ 2 := by
      have := Real.sq_sqrt h0
      calc ((nearestDist2 tree p.pos : ℚ) : ℝ)
          = Real.sqrt ((nearestDist2 tree p.pos : ℚ) : ℝ) ^ 2 := (Real.sq_sqrt h0).symm
        _ < ((thr : ℚ) : ℝ) ^ 2 := by
            apply sq_lt_sq' _ hlt
            have : (0 : ℝ) ≤ Real.sqrt ((nearestDist2 tree p.pos : ℚ) : ℝ) :=
              Real.sqrt_nonneg _
            linarith
    have : nearestDist2 tree p.pos < thr * thr := by
      have : ((nearestDist2 tree p.pos : ℚ) : ℝ) < ((thr * thr : ℚ) : ℝ) := by
        calc ((nearestDist2 tree p.pos : ℚ) : ℝ)
            < ((thr : ℚ) : ℝ) ^ 2 := hsq
          _ = ((thr * thr : ℚ) : ℝ) := by push_cast; ring
      exact_mod_cast this
    simpa using this

/-- Witness for C1 at a concrete input: the reference is the origin, the
threshold is 1/2, and the 3/10-distant point of `batchA` is characterised by
the theorem. -/
theorem fuse_keeps_point_iff_distance_below_threshold_witness :
    (0 : ℚ) ≤ 1/2 ∧
      (pA ∈ filtered_pointcloud treeA (1/2) batchA ↔
        pA ∈ batchA ∧
          Real.sqrt ((nearestDist2 treeA pA.pos : ℚ) : ℝ) < (((1:ℚ)/2 : ℚ) : ℝ)) :=
  ⟨by norm_num,
   fuse_keeps_point_iff_distance_below_threshold treeA (1/2) (by norm_num) batchA pA⟩

-- ===================================================================
-- Claim C2
-- ===================================================================

/-- Claim C2: while the stitcher is Unready (no reference tree), the
callback rejects the batch (the NotReadyError path), dropping it with no
state change: the state — in particular the global cloud — is returned
untouched. -/
theorem fuse_unready_rejected_no_state_change
    (v thr : ℚ) (st : StitcherState) (msg : List P6)
    (h : st.liosam_tree = none) :
    pointcloud_callback v thr st msg = (st, FuseOutcome.notReady) := by
  unfold pointcloud_callback
  rw [h]

/-- Witness for C2: a concrete Unready state and nonempty batch. -/
theorem fuse_unready_rejected_no_state_change_witness :
    pointcloud_callback (1/2) (1/2) ⟨none, none⟩ batchA =
      (⟨none, none⟩, FuseOutcome.notReady) :=
  fuse_unready_rejected_no_state_change (1/2) (1/2) ⟨none, none⟩ batchA rfl

-- ===================================================================
-- Claim C3
-- ===================================================================

/-- Claim C3 (code divergence): in any Ready state, fusing an empty batch is
not a no-op — `pointcloud2_to_array` of an empty message yields a
one-dimensional `np.array([])`, so the `[:, :3]` slice inside
`update_global_pointcloud` raises IndexError.  The state is unchanged only
because the exception aborts the callback before any assignment. -/
theorem fuse_empty_batch_raises_index_error
    (v thr : ℚ) (tree : List V3) (g : Option (List P6)) :
    pointcloud_callback v thr ⟨some tree, g⟩ [] =
      (⟨some tree, g⟩, FuseOutcome.err PyErr.indexError) := rfl

-- ===================================================================
-- Helper lemmas: list minima, maxima, sums and means
-- ===================================================================

theorem foldl_min_le_init (l : List ℚ) (a : ℚ) : l.foldl min a ≤ a := by
  induction l generalizing a with
  | nil => simp
  | cons h t ih =>
      simpa using le_trans (ih (min a h)) (min_le_left a h)

theorem foldl_min_le_of_mem (l : List ℚ) (a x : ℚ) (hx : x ∈ l) :
    l.foldl min a ≤ x := by
  induction l generalizing a with
  | nil => cases hx
  | cons h t ih =>
      rcases List.mem_cons.mp hx with rfl | hx'
      · simpa using le_trans (foldl_min_le_init t (min a x)) (min_le_right a x)
      · simpa using ih (min a h) hx'

theorem le_foldl_max_init (l : List ℚ) (a : ℚ) : a ≤ l.foldl max a := by
  induction l generalizing a with
  | nil => simp
  | cons h t ih =>
      simpa using le_trans (le_max_left a h) (ih (max a h))

theorem le_foldl_max_of_mem (l : List ℚ) (a x : ℚ) (hx : x ∈ l) :
    x ≤ l.foldl max a := by
  induction l generalizing a with
  | nil => cases hx
  | cons h t ih =>
      rcases List.mem_cons.mp hx with rfl | hx'
      · simpa using le_trans (le_max_right a x) (le_foldl_max_init t (max a x))
      · simpa using ih (max a h) hx'

theorem listMin_le_of_mem (l : List ℚ) (q : ℚ) (hq : q ∈ l) : listMin l ≤ q := by
  cases l with
  | nil => cases hq
  | cons a t =>
      rcases List.mem_cons.mp hq with rfl | hq'
      · exact foldl_min_le_init t q
      · exact foldl_min_le_of_mem t a q hq'

theorem le_listMax_of_mem (l : List ℚ) (q : ℚ) (hq : q ∈ l) : q ≤ listMax l := by
  cases l with
  | nil => cases hq
  | cons a t =>
      rcases List.mem_cons.mp hq with rfl | hq'
      · exact le_foldl_max_init t q
      · exact le_foldl_max_of_mem t a q hq'

theorem length_mul_le_sum (l : List ℚ) (c : ℚ) (h : ∀ x ∈ l, c ≤ x) :
    (l.length : ℚ) * c ≤ l.sum := by
  induction l with
  | nil => simp
  | cons a t ih =>
      have ha := h a (List.mem_cons_self a t)
      have ht := ih (fun x hx => h x (List.mem_cons_of_mem a hx))
      simp only [List.length_cons, List.sum_cons]
      push_cast
      linarith

theorem sum_le_length_mul (l : List ℚ) (c : ℚ) (h : ∀ x ∈ l, x ≤ c) :
    l.sum ≤ (l.length : ℚ) * c := by
  induction l with
  | nil => simp
  | cons a t ih =>
      have ha := h a (List.mem_cons_self a t)
      have ht := ih (fun x hx => h x (List.mem_cons_of_mem a hx))
      simp only [List.length_cons, List.sum_cons]
      push_cast
      linarith

theorem sum_lt_length_mul (l : List ℚ) (c : ℚ) (hl : l ≠ []) (h : ∀ x ∈ l, x < c) :
    l.sum < (l.length : ℚ) * c := by
  cases l with
  | nil => exact absurd rfl hl
  | cons a t =>
      have ha := h a (List.mem_cons_self a t)
      have ht : t.sum ≤ (t.length : ℚ) * c :=
        sum_le_length_mul t c (fun x hx => le_of_lt (h x (List.mem_cons_of_mem a hx)))
      simp only [List.length_cons, List.sum_cons]
      push_cast
      linarith

theorem length_pos_q (l : List ℚ) (hl : l ≠ []) : (0 : ℚ) < (l.length : ℚ) := by
  have := List.length_pos.mpr hl
  exact_mod_cast this

theorem le_meanQ (l : List ℚ) (c : ℚ) (hl : l ≠ []) (h : ∀ x ∈ l, c ≤ x) :
    c ≤ meanQ l := by
  rw [meanQ, le_div_iff₀ (length_pos_q l hl)]
  calc c * (l.length : ℚ) = (l.length : ℚ) * c := by ring
    _ ≤ l.sum := length_mul_le_sum l c h

theorem meanQ_le (l : List ℚ) (c : ℚ) (hl : l ≠ []) (h : ∀ x ∈ l, x ≤ c) :
    meanQ l ≤ c := by
  rw [meanQ, div_le_iff₀ (length_pos_q l hl)]
  calc l.sum ≤ (l.length : ℚ) * c := sum_le_length_mul l c h
    _ = c * (l.length : ℚ) := by ring

theorem meanQ_lt (l : List ℚ) (c : ℚ) (hl : l ≠ []) (h : ∀ x ∈ l, x < c) :
    meanQ l < c := by
  rw [meanQ, div_lt_iff₀ (length_pos_q l hl)]
  calc l.sum < (l.length : ℚ) * c := sum_lt_length_mul l c hl h
    _ = c * (l.length : ℚ) := by ring

-- ===================================================================
-- Helper lemmas: truncation toward zero
-- ===================================================================

theorem truncQ_intCast (n : ℤ) : truncQ (n : ℚ) = n := by
  unfold truncQ
  split_ifs with h
  · exact Int.ceil_intCast n
  · exact Int.floor_intCast n

theorem truncQ_int_sub (m n : ℤ) : truncQ ((m : ℚ) - (n : ℚ)) = m - n := by
  rw [show (m : ℚ) - (n : ℚ) = ((m - n : ℤ) : ℚ) by push_cast; ring]
  exact truncQ_intCast _

theorem truncQ_abs_int_add_one (n : ℤ) : truncQ (|(n : ℚ)| + 1) = |n| + 1 := by
  rw [show |(n : ℚ)| + 1 = ((|n| + 1 : ℤ) : ℚ) by push_cast; ring]
  exact truncQ_intCast _

theorem truncQ_abs_int (n : ℤ) : truncQ |(n : ℚ)| = |n| := by
  rw [show |(n : ℚ)| = ((|n| : ℤ) : ℚ) by push_cast; ring]
  exact truncQ_intCast _

theorem truncQ_nonneg (q : ℚ) (h : 0 ≤ q) : 0 ≤ truncQ q := by
  unfold truncQ
  rw [if_neg (not_lt.mpr h)]
  exact Int.floor_nonneg.mpr h

theorem one_le_truncQ (q : ℚ) (h : 1 ≤ q) : 1 ≤ truncQ q := by
  unfold truncQ
  rw [if_neg (not_lt.mpr (le_trans zero_le_one h))]
  exact Int.le_floor.mpr (by exact_mod_cast h)

-- ===================================================================
-- Claim C4
-- ===================================================================

/-- Claim C4 (code divergence): on a batch whose traversability values are
all equal, the normalization in `optimize_quadrants` divides by zero — the
source has no guard clause, so the first filled cell produces no numeric
value (ZeroDivisionError / NaN) instead of the 0.0 the spec defines. -/
theorem normalization_divide_by_zero_on_uniform_attributes :
    cellValue ptsC 1 1 1 0 0 = Except.error PyErr.zeroDivision := by
  norm_num [cellValue, cellQuery, ptsC, List.filter, meanQ, min_trav, max_trav,
    extract_trav_value, listMin, listMax, List.foldl, pyDiv]

-- ===================================================================
-- Claim C5
-- ===================================================================

/-- Claim C5, corrected: every branch of `initialize_empty_quadrants` yields
height at least 1, and every branch yields width at least 1 except the
ninth (`max_y > 0`, `max_x ≤ 0`, reached with `min_y ≤ 0`), whose width
`scale · int(|min_x|)` collapses to 0 whenever `|min_x| < 1`. -/
theorem grid_dims_positive_except_branch_nine
    (min_x max_x min_y max_y : ℚ) (s : ℤ) (hs : 1 ≤ s)
    (hx : min_x ≤ max_x) (hy : min_y ≤ max_y) :
    1 ≤ (quadrant_dims min_x max_x min_y max_y s).1 ∧
      (1 ≤ (quadrant_dims min_x max_x min_y max_y s).2 ∨
        (0 < max_y ∧ max_x ≤ 0 ∧ min_y ≤ 0 ∧ |min_x| < 1)) := by
  have hs0 : (0 : ℤ) ≤ s := by omega
  unfold quadrant_dims
  split_ifs with h1 h2 h3 h4 h5 h6 h7 h8 h9
  · have hh := truncQ_nonneg max_y (le_of_lt h1.2.1)
    have hw := truncQ_nonneg max_x (le_of_lt h1.2.2.2)
    have := mul_nonneg hs0 hh
    have := mul_nonneg hs0 hw
    exact ⟨by omega, Or.inl (by omega)⟩
  · have hh := truncQ_nonneg max_y (le_of_lt h2.2.1)
    have hw := one_le_truncQ (|min_x| + 1) (by have := abs_nonneg min_x; linarith)
    have := mul_nonneg hs0 hh
    have : 1 ≤ s * truncQ (|min_x| + 1) := by nlinarith
    exact ⟨by omega, Or.inl (by omega)⟩
  · have hh := one_le_truncQ (|min_y| + 1) (by have := abs_nonneg min_y; linarith)
    have hw := truncQ_nonneg max_x (le_of_lt h3.2.2)
    have : 1 ≤ s * truncQ (|min_y| + 1) := by nlinarith
    have := mul_nonneg hs0 hw
    exact ⟨by omega, Or.inl (by omega)⟩
  · have hh := truncQ_nonneg max_y (le_of_lt h4.2.1)
    have hw := truncQ_nonneg (max_x - min_x) (by linarith)
    have := mul_nonneg hs0 hh
    have := mul_nonneg hs0 hw
    exact ⟨by omega, Or.inl (by omega)⟩
  · have hh := truncQ_nonneg (max_y - min_y) (by linarith)
    have hw := truncQ_nonneg max_x (le_of_lt h5.2.2.2)
    have := mul_nonneg hs0 hh
    have := mul_nonneg hs0 hw
    exact ⟨by omega, Or.inl (by omega)⟩
  · have hh := truncQ_nonneg (max_y - min_y) (by linarith)
    have hw := truncQ_nonneg (max_x - min_x) (by linarith)
    have := mul_nonneg hs0 hh
    have := mul_nonneg hs0 hw
    exact ⟨by omega, Or.inl (by omega)⟩
  · have hh := one_le_truncQ (|min_y| + 1) (by have := abs_nonneg min_y; linarith)
    have hw := truncQ_nonneg (max_x - min_x) (by linarith)
    have : 1 ≤ s * truncQ (|min_y| + 1) := by nlinarith
    have := mul_nonneg hs0 hw
    exact ⟨by omega, Or.inl (by omega)⟩
  · have hh := one_le_truncQ (|min_y| + 1) (by have := abs_nonneg min_y; linarith)
    have hw := one_le_truncQ (|min_x| + 1) (by have := abs_nonneg min_x; linarith)
    have : 1 ≤ s * truncQ (|min_y| + 1) := by nlinarith
    have : 1 ≤ s * truncQ (|min_x| + 1) := by nlinarith
    exact ⟨by omega, Or.inl (by omega)⟩
  · have hh := truncQ_nonneg (max_y - min_y) (by linarith)
    have hh' := mul_nonneg hs0 hh
    have hcy : min_y ≤ 0 := by
      by_contra hcy'
      push_neg at hcy'
      exact h2 ⟨hcy', h9.1, h9.2⟩
    by_cases habs : |min_x| < 1
    · exact ⟨by omega, Or.inr ⟨h9.1, h9.2, hcy, habs⟩⟩
    · have hw := one_le_truncQ (|min_x|) (le_of_not_lt habs)
      have : 1 ≤ s * truncQ (|min_x|) := by nlinarith
      exact ⟨by omega, Or.inl (by omega)⟩
  · exfalso
    rcases le_or_lt max_y 0 with hy0 | hy0 <;> rcases le_or_lt max_x 0 with hx0 | hx0
    · exact h8 ⟨hy0, hx0⟩
    · exact h7 ⟨hy0, hx0⟩
    · exact h9 ⟨hy0, hx0⟩
    · exact h6 ⟨hy0, hx0⟩

/-- Witness for the corrected C5 at a concrete input: a 1 × 1 bounding box
entirely in the first quadrant at resolution 1. -/
theorem grid_dims_positive_except_branch_nine_witness :
    (1 : ℤ) ≤ 1 ∧ (1 : ℚ) ≤ 1 ∧ (1 : ℚ) ≤ 1 ∧
      (1 ≤ (quadrant_dims 1 1 1 1 1).1 ∧
        (1 ≤ (quadrant_dims 1 1 1 1 1).2 ∨
          (0 < (1 : ℚ) ∧ (1 : ℚ) ≤ 0 ∧ (1 : ℚ) ≤ 0 ∧ |(1 : ℚ)| < 1))) :=
  ⟨le_refl 1, le_refl 1, le_refl 1,
   grid_dims_positive_except_branch_nine 1 1 1 1 1 (le_refl 1) (le_refl 1) (le_refl 1)⟩

/-- Counterexample to C5 as stated: on the concrete batch `ptsW` (bounding
box min_x = max_x = −1/2, min_y = −1/5, max_y = 1/2) at resolution 1, the
ninth branch produces a grid of width `1 · int(|−1/2|) = 0` — not at
least 1. -/
theorem grid_width_zero_counterexample :
    ¬ (1 ≤ (quadrant_dims (bb_min_x ptsW) (bb_max_x ptsW) (bb_min_y ptsW)
        (bb_max_y ptsW) 1).2) := by
  norm_num [ptsW, bb_min_x, bb_max_x, bb_min_y, bb_max_y, listMin, listMax,
    List.foldl, quadrant_dims, truncQ, abs_of_nonneg, abs_of_nonpos]

-- ===================================================================
-- Claim C10
-- ===================================================================

/-- Claim C10, corrected: every assignment `process_quadrant` actually
performs — the write `map_q[y, x]` executed for an iteration index
`(x, y)` whose radius query is non-empty — stays in bounds whenever the
quadrant grid is square; on non-square grids an executed write can go out
of range. -/
theorem rasterization_in_bounds_on_square_grids
    (pts : List TPoint) (mx my : ℤ) (min_x max_x min_y max_y : ℚ) (s : ℤ)
    (h : (quadrant_dims min_x max_x min_y max_y s).1 =
      (quadrant_dims min_x max_x min_y max_y s).2) :
    writesInBounds pts s mx my
      (quadrant_dims min_x max_x min_y max_y s).1.toNat
      (quadrant_dims min_x max_x min_y max_y s).2.toNat := by
  have h' : (quadrant_dims min_x max_x min_y max_y s).1.toNat =
      (quadrant_dims min_x max_x min_y max_y s).2.toNat := by rw [h]
  intro x hx y hy _
  omega

/-- Witness for the corrected C10: the batch `ptsSq` yields the square
3 × 3 grid at resolution 1, and every guarded write is in bounds. -/
theorem rasterization_in_bounds_on_square_grids_witness :
    (quadrant_dims (bb_min_x ptsSq) (bb_max_x ptsSq) (bb_min_y ptsSq)
        (bb_max_y ptsSq) 1).1 =
      (quadrant_dims (bb_min_x ptsSq) (bb_max_x ptsSq) (bb_min_y ptsSq)
        (bb_max_y ptsSq) 1).2 ∧
    writesInBounds ptsSq 1 1 1
      (quadrant_dims (bb_min_x ptsSq) (bb_max_x ptsSq) (bb_min_y ptsSq)
        (bb_max_y ptsSq) 1).1.toNat
      (quadrant_dims (bb_min_x ptsSq) (bb_max_x ptsSq) (bb_min_y ptsSq)
        (bb_max_y ptsSq) 1).2.toNat :=
  ⟨by norm_num [ptsSq, bb_min_x, bb_max_x, bb_min_y, bb_max_y, listMin, listMax,
      List.foldl, quadrant_dims, truncQ],
   rasterization_in_bounds_on_square_grids ptsSq 1 1 _ _ _ _ 1
     (by norm_num [ptsSq, bb_min_x, bb_max_x, bb_min_y, bb_max_y, listMin, listMax,
       List.foldl, quadrant_dims, truncQ])⟩

/-- Counterexample to C10 as stated: the batch `ptsB` yields the non-square
2 × 1 grid at resolution 1, and iteration index (1, 0) of quadrant Q1 has a
non-empty radius query (the point (9/10, 9/20) is within squared distance
29/80 ≤ 1/2 of the queried center (3/2, 1/2)), so the guard passes and the
code writes to row 0, column 1 — out of range for a single-column array. -/
theorem rasterization_out_of_bounds_counterexample :
    quadrant_dims (bb_min_x ptsB) (bb_max_x ptsB) (bb_min_y ptsB)
        (bb_max_y ptsB) 1 = (2, 1) ∧
      ¬ writesInBounds ptsB 1 1 1 2 1 := by
  constructor
  · norm_num [ptsB, bb_min_x, bb_max_x, bb_min_y, bb_max_y, listMin, listMax,
      List.foldl, quadrant_dims, truncQ]
  · intro h
    have hq : cellQuery ptsB 1 1 1 1 0 ≠ [] := by
      norm_num [cellQuery, ptsB, List.filter]
    have := (h 1 (by omega) 0 (by omega) hq).2
    omega

-- ===================================================================
-- Claim C6
-- ===================================================================

/-- Evaluation of the spec's uniform dimension formula on an integer-valued
axis: ceiling and floor are the identity on integers. -/
theorem uniform_dim_intCast (r m n : ℤ) :
    uniform_dim r (m : ℚ) (n : ℚ) = r * (max 0 n - min 0 m) + 1 := by
  unfold uniform_dim
  have h1 : ⌈max (0 : ℚ) (n : ℚ)⌉ = max 0 n := by
    rw [show max (0 : ℚ) (n : ℚ) = ((max 0 n : ℤ) : ℚ) by push_cast; rfl]
    exact Int.ceil_intCast _
  have h2 : ⌊min (0 : ℚ) (m : ℚ)⌋ = min 0 m := by
    rw [show min (0 : ℚ) (m : ℚ) = ((min 0 m : ℤ) : ℚ) by push_cast; rfl]
    exact Int.floor_intCast _
  rw [h1, h2]

/-- Claim C6, corrected: at resolution 1 and for integer-valued bounding
boxes, the spec's uniform formula reproduces the nine-way branch exactly on
every branch except the ninth (`min_y ≤ 0 < max_y` with `max_x ≤ 0`),
where the source width is `resolution · int(|min_x|)`, not the formula's
value.  (For fractional bounds the truncation `int(...)` differs from the
formula's ceiling, and for resolution > 1 the branches of the form
`scale · int(|min| + 1)` differ from `scale · int(|min|) + 1`.) -/
theorem uniform_formula_matches_on_integer_boxes_off_branch_nine
    (a b c d : ℤ) (hab : a ≤ b) (hcd : c ≤ d)
    (h9 : ¬ (0 < d ∧ b ≤ 0 ∧ c ≤ 0)) :
    quadrant_dims (a : ℚ) (b : ℚ) (c : ℚ) (d : ℚ) 1 =
      (uniform_dim 1 (c : ℚ) (d : ℚ), uniform_dim 1 (a : ℚ) (b : ℚ)) := by
  rw [uniform_dim_intCast, uniform_dim_intCast]
  unfold quadrant_dims
  split_ifs with h1 h2 h3 h4 h5 h6 h7 h8 h9'
  · simp only [Int.cast_pos, Int.cast_nonpos] at h1
    obtain ⟨hc, hd, ha, hb⟩ := h1
    rw [truncQ_intCast, truncQ_intCast, Prod.mk.injEq,
      max_eq_right (le_of_lt hd), min_eq_left (le_of_lt hc),
      max_eq_right (le_of_lt hb), min_eq_left (le_of_lt ha)]
    constructor <;> omega
  · simp only [Int.cast_pos, Int.cast_nonpos] at h2
    obtain ⟨hc, hd, hb⟩ := h2
    have ha : a ≤ 0 := by omega
    rw [truncQ_intCast, truncQ_abs_int_add_one, Prod.mk.injEq, abs_of_nonpos ha,
      max_eq_right (le_of_lt hd), min_eq_left (le_of_lt hc),
      max_eq_left hb, min_eq_right ha]
    constructor <;> omega
  · simp only [Int.cast_pos, Int.cast_nonpos] at h3
    obtain ⟨hd, ha, hb⟩ := h3
    have hc : c ≤ 0 := by omega
    rw [truncQ_abs_int_add_one, truncQ_intCast, Prod.mk.injEq, abs_of_nonpos hc,
      max_eq_left hd, min_eq_right hc,
      max_eq_right (le_of_lt hb), min_eq_left (le_of_lt ha)]
    constructor <;> omega
  · simp only [Int.cast_pos, Int.cast_nonpos] at h4
    obtain ⟨hc, hd, ha, hb⟩ := h4
    rw [truncQ_intCast, truncQ_int_sub, Prod.mk.injEq,
      max_eq_right (le_of_lt hd), min_eq_left (le_of_lt hc),
      max_eq_right (le_of_lt hb), min_eq_right ha]
    constructor <;> omega
  · simp only [Int.cast_pos, Int.cast_nonpos] at h5
    obtain ⟨hc, hd, ha, hb⟩ := h5
    rw [truncQ_int_sub, truncQ_intCast, Prod.mk.injEq,
      max_eq_right (le_of_lt hd), min_eq_right hc,
      max_eq_right (le_of_lt hb), min_eq_left (le_of_lt ha)]
    constructor <;> omega
  · simp only [Int.cast_pos, Int.cast_nonpos] at h1 h4 h5 h6
    obtain ⟨hd, hb⟩ := h6
    have hc : c ≤ 0 := by
      by_contra hc'
      push_neg at hc'
      rcases le_or_lt a 0 with ha | ha
      · exact h4 ⟨hc', hd, ha, hb⟩
      · exact h1 ⟨hc', hd, ha, hb⟩
    have ha : a ≤ 0 := by
      by_contra ha'
      push_neg at ha'
      exact h5 ⟨hc, hd, ha', hb⟩
    rw [truncQ_int_sub, truncQ_int_sub, Prod.mk.injEq,
      max_eq_right (le_of_lt hd), min_eq_right hc,
      max_eq_right (le_of_lt hb), min_eq_right ha]
    constructor <;> omega
  · simp only [Int.cast_pos, Int.cast_nonpos] at h3 h7
    obtain ⟨hd, hb⟩ := h7
    have ha : a ≤ 0 := by
      by_contra ha'
      push_neg at ha'
      exact h3 ⟨hd, ha', hb⟩
    have hc : c ≤ 0 := by omega
    rw [truncQ_abs_int_add_one, truncQ_int_sub, Prod.mk.injEq, abs_of_nonpos hc,
      max_eq_left hd, min_eq_right hc,
      max_eq_right (le_of_lt hb), min_eq_right ha]
    constructor <;> omega
  · simp only [Int.cast_pos, Int.cast_nonpos] at h8
    obtain ⟨hd, hb⟩ := h8
    have ha : a ≤ 0 := by omega
    have hc : c ≤ 0 := by omega
    rw [truncQ_abs_int_add_one, truncQ_abs_int_add_one, Prod.mk.injEq,
      abs_of_nonpos ha, abs_of_nonpos hc,
      max_eq_left hd, min_eq_right hc,
      max_eq_left hb, min_eq_right ha]
    constructor <;> omega
  · simp only [Int.cast_pos, Int.cast_nonpos] at h2 h9'
    obtain ⟨hd, hb⟩ := h9'
    have hc : c ≤ 0 := by
      by_contra hc'
      push_neg at hc'
      exact h2 ⟨hc', hd, hb⟩
    exact absurd ⟨hd, hb, hc⟩ h9
  · exfalso
    simp only [Int.cast_pos, Int.cast_nonpos] at h6 h7 h8 h9'
    rcases le_or_lt d 0 with hy0 | hy0 <;> rcases le_or_lt b 0 with hx0 | hx0
    · exact h8 ⟨hy0, hx0⟩
    · exact h7 ⟨hy0, hx0⟩
    · exact h9' ⟨hy0, hx0⟩
    · exact h6 ⟨hy0, hx0⟩

/-- Witness for the corrected C6 at a concrete integer box entirely in the
first quadrant. -/
theorem uniform_formula_matches_on_integer_boxes_witness :
    (1 : ℤ) ≤ 2 ∧ (1 : ℤ) ≤ 3 ∧ ¬ ((0 : ℤ) < 3 ∧ (2 : ℤ) ≤ 0 ∧ (1 : ℤ) ≤ 0) ∧
      quadrant_dims ((1 : ℤ) : ℚ) ((2 : ℤ) : ℚ) ((1 : ℤ) : ℚ) ((3 : ℤ) : ℚ) 1 =
        (uniform_dim 1 ((1 : ℤ) : ℚ) ((3 : ℤ) : ℚ),
         uniform_dim 1 ((1 : ℤ) : ℚ) ((2 : ℤ) : ℚ)) :=
  ⟨by omega, by omega, by omega,
   uniform_formula_matches_on_integer_boxes_off_branch_nine 1 2 1 3
     (by omega) (by omega) (by omega)⟩

/-- Counterexample to C6 as stated: on the degenerate box
min = max = 1/2 on both axes at resolution 1, the source's first branch
gives a 1 × 1 grid while the uniform formula gives 2 × 2. -/
theorem uniform_formula_mismatch_counterexample :
    quadrant_dims (1/2) (1/2) (1/2) (1/2) 1 ≠
      (uniform_dim 1 (1/2) (1/2), uniform_dim 1 (1/2) (1/2)) := by
  norm_num [quadrant_dims, uniform_dim, truncQ, Prod.ext_iff]

-- ===================================================================
-- Claim C7
-- ===================================================================

/-- The radius query of `process_quadrant`, rewritten: the box midpoint is
the anchor plus (1/2, 1/2) and the squared half-diagonal of the 1×1 box
is 1/2. -/
theorem cellQuery_eq_unit_box (pts : List TPoint) (s mx my : ℤ) (x y : ℕ) :
    cellQuery pts s mx my x y =
      pts.filter (fun p => decide
        ((p.x - (((x : ℚ) * (mx : ℚ)) / (s : ℚ) + 1/2)) ^ 2 +
          (p.y - (((y : ℚ) * (my : ℚ)) / (s : ℚ) + 1/2)) ^ 2 ≤ 1/2)) := by
  simp only [cellQuery]
  apply List.filter_congr
  intro p hp
  rw [decide_eq_decide]
  constructor <;> intro h <;> (ring_nf at h ⊢; exact h)

/-- Claim C7, corrected: each cell's query box is a fixed 1 × 1 world-space
square anchored at the sign-multiplied, resolution-divided cell coordinate
(1 × 1 regardless of the resolution), queried at its center with squared
radius 1/2, and a filled cell receives the batch-normalized mean
`(avg − globalMin)/(globalMax − globalMin)` of the raw attribute values
(default 0.0 when the query is empty). -/
theorem cell_value_unit_box_normalized_mean
    (pts : List TPoint) (s mx my : ℤ) (x y : ℕ) (_hs : 0 < s)
    (hmm : min_trav pts ≠ max_trav pts) :
    cellValue pts s mx my x y = Except.ok (cell_value_amended pts s mx my x y) := by
  have hden : max_trav pts - min_trav pts ≠ 0 := sub_ne_zero.mpr (Ne.symm hmm)
  simp only [cellValue, cell_value_amended]
  rw [cellQuery_eq_unit_box]
  by_cases he : (pts.filter (fun p => decide
      ((p.x - (((x : ℚ) * (mx : ℚ)) / (s : ℚ) + 1/2)) ^ 2 +
        (p.y - (((y : ℚ) * (my : ℚ)) / (s : ℚ) + 1/2)) ^ 2 ≤ 1/2))).isEmpty
  · rw [if_pos he, if_pos he]
  · rw [if_neg he, if_neg he]
    simp only [pyDiv]
    rw [if_neg hden]

/-- Witness for the corrected C7 on the concrete batch `pts2` at
resolution 1, quadrant Q1, cell (0, 0). -/
theorem cell_value_unit_box_normalized_mean_witness :
    (0 : ℤ) < 1 ∧ min_trav pts2 ≠ max_trav pts2 ∧
      cellValue pts2 1 1 1 0 0 = Except.ok (cell_value_amended pts2 1 1 1 0 0) :=
  ⟨by omega,
   by norm_num [min_trav, max_trav, pts2, extract_trav_value, listMin, listMax, List.foldl],
   cell_value_unit_box_normalized_mean pts2 1 1 1 0 0 (by omega)
     (by norm_num [min_trav, max_trav, pts2, extract_trav_value, listMin, listMax, List.foldl])⟩

/-- Counterexample to C7 as stated: on the batch `pts2` (attribute values
1 and 2), resolution 1, quadrant Q1, cell (0, 0), the code stores 1/2 (the
normalized mean), while the claim's raw arithmetic mean of the queried
attribute values is 3/2. -/
theorem cell_value_not_raw_mean_counterexample :
    cellValue pts2 1 1 1 0 0 = Except.ok (1/2) ∧
      cell_value_claimed pts2 1 1 1 0 0 = 3/2 ∧ ((1 : ℚ)/2) ≠ 3/2 := by
  refine ⟨?_, ?_, by norm_num⟩
  · norm_num [cellValue, cellQuery, pts2, List.filter, meanQ, min_trav, max_trav,
      extract_trav_value, listMin, listMax, List.foldl, pyDiv]
  · norm_num [cell_value_claimed, pts2, List.filter, meanQ, extract_trav_value]

-- ===================================================================
-- Claim C8
-- ===================================================================

/-- Every point returned by the cell radius query belongs to the input
batch. -/
theorem cellQuery_subset (pts : List TPoint) (s mx my : ℤ) (x y : ℕ) :
    ∀ p ∈ cellQuery pts s mx my x y, p ∈ pts := by
  intro p hp
  simp only [cellQuery] at hp
  exact (List.mem_filter.mp hp).1

/-- Claim C8: whenever the batch-wide attribute maximum strictly exceeds
the minimum, every filled cell's normalized value lies in [0, 1]; the
normalization bounds are those of the entire input batch. -/
theorem normalized_cell_values_lie_in_unit_interval
    (pts : List TPoint) (s mx my : ℤ) (x y : ℕ)
    (hlt : min_trav pts < max_trav pts)
    (hq : cellQuery pts s mx my x y ≠ []) :
    ∃ val, cellValue pts s mx my x y = Except.ok val ∧ 0 ≤ val ∧ val ≤ 1 := by
  have hpos : 0 < max_trav pts - min_trav pts := sub_pos.mpr hlt
  have hden : max_trav pts - min_trav pts ≠ 0 := ne_of_gt hpos
  have hne : (cellQuery pts s mx my x y).isEmpty = false := by
    simpa [List.isEmpty_iff] using hq
  have hmapne : (cellQuery pts s mx my x y).map extract_trav_value ≠ [] := by
    intro hmap
    exact hq (List.map_eq_nil_iff.mp hmap)
  have hbound_lo : ∀ t ∈ (cellQuery pts s mx my x y).map extract_trav_value,
      min_trav pts ≤ t := by
    intro t ht
    obtain ⟨p, hp, rfl⟩ := List.mem_map.mp ht
    exact listMin_le_of_mem _ _
      (List.mem_map_of_mem extract_trav_value (cellQuery_subset pts s mx my x y p hp))
  have hbound_hi : ∀ t ∈ (cellQuery pts s mx my x y).map extract_trav_value,
      t ≤ max_trav pts := by
    intro t ht
    obtain ⟨p, hp, rfl⟩ := List.mem_map.mp ht
    exact le_listMax_of_mem _ _
      (List.mem_map_of_mem extract_trav_value (cellQuery_subset pts s mx my x y p hp))
  have hlo : min_trav pts ≤ meanQ ((cellQuery pts s mx my x y).map extract_trav_value) :=
    le_meanQ _ _ hmapne hbound_lo
  have hhi : meanQ ((cellQuery pts s mx my x y).map extract_trav_value) ≤ max_trav pts :=
    meanQ_le _ _ hmapne hbound_hi
  refine ⟨(meanQ ((cellQuery pts s mx my x y).map extract_trav_value) - min_trav pts) /
    (max_trav pts - min_trav pts), ?_, ?_, ?_⟩
  · simp only [cellValue, hne, Bool.false_eq_true, if_false, pyDiv]
    rw [if_neg hden]
  · exact div_nonneg (sub_nonneg.mpr hlo) (le_of_lt hpos)
  · rw [div_le_one hpos]
    linarith

/-- Witness for C8 on the concrete batch `pts2` (attribute minimum 1,
maximum 2) at resolution 1, quadrant Q1, cell (0, 0). -/
theorem normalized_cell_values_lie_in_unit_interval_witness :
    min_trav pts2 < max_trav pts2 ∧ cellQuery pts2 1 1 1 0 0 ≠ [] ∧
      (∃ val, cellValue pts2 1 1 1 0 0 = Except.ok val ∧ 0 ≤ val ∧ val ≤ 1) :=
  ⟨by norm_num [min_trav, max_trav, pts2, extract_trav_value, listMin, listMax, List.foldl],
   by norm_num [cellQuery, pts2, List.filter]; exact List.cons_ne_nil _ _,
   normalized_cell_values_lie_in_unit_interval pts2 1 1 1 0 0
     (by norm_num [min_trav, max_trav, pts2, extract_trav_value, listMin, listMax, List.foldl])
     (by norm_num [cellQuery, pts2, List.filter]; exact List.cons_ne_nil _ _)⟩

-- ===================================================================
-- Claim C9
-- ===================================================================

/-- If every element of a nonempty list lies in the voxel slab
`[n·v, (n+1)·v)` — that is, has floor quotient `n` — then so does the
list's mean. -/
theorem floor_meanQ_div (v : ℚ) (hv : 0 < v) (l : List ℚ) (hl : l ≠ []) (n : ℤ)
    (h : ∀ q ∈ l, ⌊q / v⌋ = n) : ⌊meanQ l / v⌋ = n := by
  have hlow : ∀ q ∈ l, (n : ℚ) * v ≤ q := by
    intro q hq
    have h1 : (n : ℚ) ≤ q / v := (Int.floor_eq_iff.mp (h q hq)).1
    exact (le_div_iff₀ hv).mp h1
  have hhigh : ∀ q ∈ l, q < ((n : ℚ) + 1) * v := by
    intro q hq
    have h1 : q / v < (n : ℚ) + 1 := (Int.floor_eq_iff.mp (h q hq)).2
    exact (div_lt_iff₀ hv).mp h1
  have h1 : (n : ℚ) * v ≤ meanQ l := le_meanQ l _ hl hlow
  have h2 : meanQ l < ((n : ℚ) + 1) * v := meanQ_lt l _ hl hhigh
  rw [Int.floor_eq_iff]
  constructor
  · exact (le_div_iff₀ hv).mpr h1
  · exact (div_lt_iff₀ hv).mpr h2

/-- The centroid of a nonempty group of points sharing a common voxel key
has that same voxel key (the group mean stays inside the cube). -/
theorem vkey_centroid (v : ℚ) (hv : 0 < v) (k : ℤ × ℤ × ℤ) (l : List P6)
    (hl : l ≠ []) (h : ∀ p ∈ l, vkey v p = k) : vkey v (centroid l) = k := by
  obtain ⟨k1, k2, k3⟩ := k
  have hxne : l.map P6.x ≠ [] := fun hmap => hl (List.map_eq_nil_iff.mp hmap)
  have hyne : l.map P6.y ≠ [] := fun hmap => hl (List.map_eq_nil_iff.mp hmap)
  have hzne : l.map P6.z ≠ [] := fun hmap => hl (List.map_eq_nil_iff.mp hmap)
  have hx : ∀ q ∈ l.map P6.x, ⌊q / v⌋ = k1 := by
    intro q hq
    obtain ⟨p, hp, rfl⟩ := List.mem_map.mp hq
    have := h p hp
    simp only [vkey, Prod.mk.injEq] at this
    exact this.1
  have hy : ∀ q ∈ l.map P6.y, ⌊q / v⌋ = k2 := by
    intro q hq
    obtain ⟨p, hp, rfl⟩ := List.mem_map.mp hq
    have := h p hp
    simp only [vkey, Prod.mk.injEq] at this
    exact this.2.1
  have hz : ∀ q ∈ l.map P6.z, ⌊q / v⌋ = k3 := by
    intro q hq
    obtain ⟨p, hp, rfl⟩ := List.mem_map.mp hq
    have := h p hp
    simp only [vkey, Prod.mk.injEq] at this
    exact this.2.2
  simp only [vkey, centroid, Prod.mk.injEq]
  exact ⟨floor_meanQ_div v hv _ hxne k1 hx,
    floor_meanQ_div v hv _ hyne k2 hy,
    floor_meanQ_div v hv _ hzne k3 hz⟩

/-- Filtering the image of a duplicate-free key list under a section `g`
of the voxel-key map by one of the keys returns exactly the singleton of
its image. -/
theorem filter_map_eq_singleton (v : ℚ) (keys : List (ℤ × ℤ × ℤ))
    (g : ℤ × ℤ × ℤ → P6) (hnd : keys.Nodup)
    (hg : ∀ k ∈ keys, vkey v (g k) = k) (k : ℤ × ℤ × ℤ) (hk : k ∈ keys) :
    (keys.map g).filter (fun p => decide (vkey v p = k)) = [g k] := by
  induction keys with
  | nil => cases hk
  | cons k0 rest ih =>
      have hg0 : vkey v (g k0) = k0 := hg k0 (List.mem_cons_self k0 rest)
      simp only [List.map_cons, List.filter_cons]
      rcases List.mem_cons.mp hk with rfl | hk'
      · rw [if_pos (by simp [hg0])]
        have hrest : (rest.map g).filter (fun p => decide (vkey v p = k)) = [] := by
          rw [List.filter_eq_nil_iff]
          intro p hp
          obtain ⟨k', hk'', rfl⟩ := List.mem_map.mp hp
          have hgk' : vkey v (g k') = k' := hg k' (List.mem_cons_of_mem _ hk'')
          have hne : k' ≠ k := by
            intro hEq
            exact (List.nodup_cons.mp hnd).1 (hEq ▸ hk'')
          simp [hgk', hne]
        rw [hrest]
      · have hne : k0 ≠ k := by
          intro hEq
          exact (List.nodup_cons.mp hnd).1 (hEq ▸ hk')
        rw [if_neg (by simp [hg0, hne])]
        exact ih (List.nodup_cons.mp hnd).2
          (fun k' hk'' => hg k' (List.mem_cons_of_mem k0 hk'')) hk'

/-- The centroid of a singleton list is its element. -/
theorem centroid_singleton (p : P6) : centroid [p] = p := by
  simp [centroid, meanQ]

/-- Claim C9 (spec-modelled): voxel downsampling is idempotent — each
output point of a downsampling pass stays inside its own voxel, so a second
pass at the same voxel size finds exactly one point per occupied voxel and
returns each unchanged. -/
theorem voxel_down_sample_idempotent (v : ℚ) (hv : 0 < v) (S : List P6) :
    voxel_down_sample v (voxel_down_sample v S) = voxel_down_sample v S := by
  have hgk : ∀ k ∈ (S.map (vkey v)).dedup,
      vkey v (centroid (S.filter (fun p => decide (vkey v p = k)))) = k := by
    intro k hk
    have hkmem : k ∈ S.map (vkey v) := List.mem_dedup.mp hk
    obtain ⟨p, hp, hpk⟩ := List.mem_map.mp hkmem
    have hpfil : p ∈ S.filter (fun p => decide (vkey v p = k)) :=
      List.mem_filter.mpr ⟨hp, by simp [hpk]⟩
    refine vkey_centroid v hv k _ (List.ne_nil_of_mem hpfil) ?_
    intro q hq
    have := (List.mem_filter.mp hq).2
    simpa using this
  have hmapkey : ((S.map (vkey v)).dedup.map
      (fun k => centroid (S.filter (fun p => decide (vkey v p = k))))).map (vkey v) =
      (S.map (vkey v)).dedup := by
    rw [List.map_map]
    calc ((S.map (vkey v)).dedup).map
          ((vkey v) ∘ fun k => centroid (S.filter (fun p => decide (vkey v p = k))))
        = ((S.map (vkey v)).dedup).map id :=
          List.map_congr_left (fun k hk => hgk k hk)
      _ = (S.map (vkey v)).dedup := List.map_id _
  show (((voxel_down_sample v S).map (vkey v)).dedup).map
      (fun k => centroid ((voxel_down_sample v S).filter
        (fun p => decide (vkey v p = k)))) = voxel_down_sample v S
  have hDS : voxel_down_sample v S = (S.map (vkey v)).dedup.map
      (fun k => centroid (S.filter (fun p => decide (vkey v p = k)))) := rfl
  rw [hDS, hmapkey, List.dedup_eq_self.mpr (List.nodup_dedup _)]
  calc (S.map (vkey v)).dedup.map
        (fun k => centroid (((S.map (vkey v)).dedup.map
          (fun k' => centroid (S.filter (fun p => decide (vkey v p = k'))))).filter
            (fun p => decide (vkey v p = k))))
      = (S.map (vkey v)).dedup.map
          (fun k => centroid (S.filter (fun p => decide (vkey v p = k)))) := by
        apply List.map_congr_left
        intro k hk
        rw [filter_map_eq_singleton v ((S.map (vkey v)).dedup)
          (fun k' => centroid (S.filter (fun p => decide (vkey v p = k'))))
          (List.nodup_dedup _) hgk k hk]
        exact centroid_singleton _

/-- Witness for C9 at a concrete input: the two-point cloud `cloudS` and
voxel size 1. -/
theorem voxel_down_sample_idempotent_witness :
    (0 : ℚ) < 1 ∧
      voxel_down_sample 1 (voxel_down_sample 1 cloudS) = voxel_down_sample 1 cloudS :=
  ⟨by norm_num, voxel_down_sample_idempotent 1 (by norm_num) cloudS⟩

end Reu2024
